import Mathlib

/-!
Verification development for the node's mutator-set accumulator and its
RPC / transaction-pool surface.

Digests are modelled as natural numbers; the node-combining hash is the
injective pairing function (an idealised collision-free hash).  The
mutator-set core (accumulator, AOCL MMR, sliding-window Bloom filter,
membership proofs, restoration) is not part of the extracted sources, so
it is modelled from the specification; definitions carrying such a model
say so in their doc comment.  Protocol constants (window size, chunk
size, batch size, number of Bloom indices per item) are named parameters
in the specification; small concrete values are chosen here.
-/

/-- A commitment digest, modelled as a natural number. -/
abbrev Digest : Type := Nat

/-- Modelled from the spec: the two-to-one hash used to combine Merkle
nodes, idealised as the injective pairing function. -/
def hashNode (a b : Nat) : Nat := Nat.pair a b

/-- Number of Bloom-filter indices derived per item (protocol constant `k`). -/
def numTrials : Nat := 4

/-- Size of the active window of the sliding-window Bloom filter (protocol constant `W`). -/
def windowSize : Nat := 64

/-- Size of an archived chunk of the sliding-window Bloom filter (protocol constant). -/
def chunkSize : Nat := 16

/-- Number of leaf additions per window slide (protocol constant). -/
def batchSize : Nat := 8

/-! ## Merkle mountain range over a list of leaf digests

The AOCL is an MMR of commitment digests; the chunk archive is a second
MMR over chunk digests.  Peaks are the roots of a forest of perfect
binary trees maintained like a binary counter. -/

/-- A Merkle tree with digests at the leaves. -/
inductive MTree where
  | leaf : Nat → MTree
  | node : MTree → MTree → MTree
deriving DecidableEq

/-- Root digest of a Merkle tree. -/
def MTree.root : MTree → Nat
  | .leaf d => d
  | .node l r => hashNode l.root r.root

/-- Number of leaves of a Merkle tree. -/
def MTree.size : MTree → Nat
  | .leaf _ => 1
  | .node l r => l.size + r.size

/-- The leaves of a Merkle tree, left to right. -/
def MTree.leaves : MTree → List Nat
  | .leaf d => [d]
  | .node l r => l.leaves ++ r.leaves

/-- The leaf digest at position `i` (0 when out of range). -/
def MTree.leafAt (t : MTree) (i : Nat) : Nat := t.leaves.getD i 0

/-- Authentication path for the leaf at position `i`: the sibling digests
from the leaf up to the root, each tagged with `true` when the sibling
sits on the left. -/
def MTree.pathAt : MTree → Nat → List (Bool × Nat)
  | .leaf _, _ => []
  | .node l r, i =>
    if i < l.size then l.pathAt i ++ [(false, r.root)]
    else r.pathAt (i - l.size) ++ [(true, l.root)]

/-- Recompute a root candidate from a leaf digest and an authentication path. -/
def foldPath (start : Nat) (path : List (Bool × Nat)) : Nat :=
  path.foldl (fun acc e => if e.1 then hashNode e.2 acc else hashNode acc e.2) start

/-- Push a tree onto an MMR forest (most recent tree first), merging
equal-sized trees like a binary-counter carry. -/
def pushTree : List MTree → MTree → List MTree
  | [], t => [t]
  | s :: rest, t => if s.size = t.size then pushTree rest (.node s t) else t :: s :: rest

/-- The MMR forest of a list of leaf digests (most recent tree first). -/
def buildForest (ls : List Nat) : List MTree :=
  ls.foldl (fun f d => pushTree f (.leaf d)) []

/-- Locate the tree containing global leaf index `i` in an oldest-first
list of trees, returning the tree and the offset inside it. -/
def findTree : List MTree → Nat → Option (MTree × Nat)
  | [], _ => none
  | t :: rest, i => if i < t.size then some (t, i) else findTree rest (i - t.size)

/-- The peak (root of the containing tree) for leaf index `i` of the MMR
over `ls`; `none` when `i` is out of range. -/
def peakAt (ls : List Nat) (i : Nat) : Option Nat :=
  (findTree (buildForest ls).reverse i).map (fun p => p.1.root)

/-- The authentication path for leaf index `i` of the MMR over `ls`;
`none` when `i` is out of range. -/
def authPathAt (ls : List Nat) (i : Nat) : Option (List (Bool × Nat)) :=
  (findTree (buildForest ls).reverse i).map (fun p => p.1.pathAt p.2)

/-- The peaks of the MMR over `ls`, most recent first. -/
def peaksOf (ls : List Nat) : List Nat := (buildForest ls).map MTree.root

/-- All leaves of a list of trees, in list order. -/
def joinLeaves (ts : List MTree) : List Nat := (ts.map MTree.leaves).flatten

/-! ## Mutator set accumulator (modelled from the spec) -/

/-- Modelled from the spec: the mutator set accumulator state.  `aocl` is
the append-only commitment list (leaves of the AOCL MMR), `chunks` the
archived Bloom-filter chunks (oldest first, each `chunkSize` bits), and
`window` the active Bloom-filter window (`windowSize` bits).  The
extracted sources only reference this type; its definition is missing
from them. -/
structure MutatorSetAccumulator where
  aocl : List Nat
  chunks : List (List Bool)
  window : List Bool
deriving DecidableEq

/-- Modelled from the spec: a freshly created, empty mutator set accumulator. -/
def MutatorSetAccumulator.new : MutatorSetAccumulator :=
  ⟨[], [], List.replicate windowSize false⟩

/-- Number of AOCL leaves. -/
def num_leafs (s : MutatorSetAccumulator) : Nat := s.aocl.length

/-- First global Bloom-filter index covered by the active window. -/
def windowStart (s : MutatorSetAccumulator) : Nat := s.chunks.length * chunkSize

/-- Digest of a chunk (or of the active window), an injective encoding of
the bit list. -/
def chunkDigest (c : List Bool) : Nat :=
  c.foldr (fun b acc => 2 * acc + (if b then 1 else 0)) 0

/-- Read a global Bloom-filter index from the active window. -/
def windowBit (s : MutatorSetAccumulator) (g : Nat) : Bool :=
  s.window.getD (g - windowStart s) false

/-- Read a global Bloom-filter index from the chunk archive. -/
def chunkBit (s : MutatorSetAccumulator) (g : Nat) : Bool :=
  (s.chunks.getD (g / chunkSize) []).getD (g % chunkSize) false

/-- Modelled from the spec: `get_bit` resolves a global index to the
active window when `windowStart ≤ g`, else to the owning archived chunk. -/
def get_bit (s : MutatorSetAccumulator) (g : Nat) : Bool :=
  if windowStart s ≤ g then windowBit s g else chunkBit s g

/-- Set one global Bloom-filter index to 1, in the active window or in
the owning archived chunk. -/
def setBitAt (s : MutatorSetAccumulator) (g : Nat) : MutatorSetAccumulator :=
  if windowStart s ≤ g then
    { s with window := s.window.set (g - windowStart s) true }
  else
    { s with chunks :=
        s.chunks.set (g / chunkSize) ((s.chunks.getD (g / chunkSize) []).set (g % chunkSize) true) }

/-- Modelled from the spec: `set_bits` flips every index of the set to 1. -/
def set_bits (s : MutatorSetAccumulator) (idxs : List Nat) : MutatorSetAccumulator :=
  idxs.foldl setBitAt s

/-- Modelled from the spec: `slide_window` freezes the departing slice of
the active window into a chunk, appends it to the chunk archive and
shifts the window forward by the vacated length. -/
def slide_window (s : MutatorSetAccumulator) : MutatorSetAccumulator :=
  { s with
    chunks := s.chunks ++ [s.window.take chunkSize]
    window := s.window.drop chunkSize ++ List.replicate chunkSize false }

/-- Modelled from the spec: `add` appends a commitment to the AOCL and,
keyed off the new leaf count, possibly slides the window. -/
def msAdd (s : MutatorSetAccumulator) (c : Nat) : MutatorSetAccumulator :=
  let s1 : MutatorSetAccumulator := { s with aocl := s.aocl ++ [c] }
  if s1.aocl.length % batchSize = 0 then slide_window s1 else s1

/-- Modelled from the spec: the hash-to-indices construction.  A simple
deterministic mixing of the four seeds; the exact construction is a named
parameter of the specification. -/
def hashToOffset (item sr rp li j : Nat) : Nat :=
  (item + sr + rp + li + j) % windowSize

/-- Modelled from the spec: `compute_index_set` derives `numTrials`
global Bloom-filter indices from the item, its randomness and its AOCL
leaf index; the indices land inside the active window as it stands right
after the item's own addition. -/
def compute_index_set (item sr rp li : Nat) : List Nat :=
  (List.range numTrials).map
    (fun j => ((li + 1) / batchSize) * chunkSize + hashToOffset item sr rp li j)

/-- Modelled from the spec: a removal record, the public data needed to
apply a removal.  Chunk authentication data is omitted because this model
is the full state that retains every chunk locally. -/
structure RemovalRecord where
  index_set : List Nat
deriving DecidableEq

/-- Modelled from the spec: the removal record correctly derived for the
item with the given opening and AOCL leaf index. -/
def removal_record (item sr rp li : Nat) : RemovalRecord :=
  ⟨compute_index_set item sr rp li⟩

/-- Modelled from the spec: `remove` applies `set_bits` for the record's
index set and reports `AlreadySpent` (`true`) when any of those bits was
already 1; the bits are still applied idempotently. -/
def msRemove (s : MutatorSetAccumulator) (r : RemovalRecord) : MutatorSetAccumulator × Bool :=
  (set_bits s r.index_set, r.index_set.any (fun g => get_bit s g))

/-- Modelled from the spec: the canonical commitment, the first stage of
the addition-record hash chain over (item, sender randomness, receiver
digest). -/
def canonical_commitment (item sr rd : Nat) : Nat :=
  Nat.pair (Nat.pair item sr) rd

/-- Modelled from the spec: a membership proof.  The index-set seed of
the specification is the pair of randomness values kept here. -/
structure MembershipProof where
  aocl_leaf_index : Nat
  aocl_auth_path : List (Bool × Nat)
  sender_randomness : Nat
  receiver_preimage : Nat
  chunk_proofs : List (Nat × (List Bool × List (Bool × Nat)))
deriving DecidableEq

/-- Modelled from the spec: `prove_membership` assembles the AOCL
authentication path and, for indices already archived, the owning chunks
with their chunk-MMR authentication paths. -/
def prove_membership (s : MutatorSetAccumulator) (item sr rp li : Nat) : MembershipProof :=
  { aocl_leaf_index := li
    aocl_auth_path := (authPathAt s.aocl li).getD []
    sender_randomness := sr
    receiver_preimage := rp
    chunk_proofs :=
      ((compute_index_set item sr rp li).filter (fun g => g < windowStart s)).map
        (fun g => (g / chunkSize,
          (s.chunks.getD (g / chunkSize) [],
           (authPathAt (s.chunks.map chunkDigest) (g / chunkSize)).getD []))) }

/-- Modelled from the spec: `verify` checks that the AOCL authentication
path recomputes to the peak for the proof's leaf index, and that every
derived Bloom index is unset — read from the active window when in
range, else from the proof's chunk, itself authenticated against the
chunk MMR. -/
def msVerify (s : MutatorSetAccumulator) (item : Nat) (p : MembershipProof) : Bool :=
  let leafDigest := canonical_commitment item p.sender_randomness p.receiver_preimage
  let authOk :=
    match peakAt s.aocl p.aocl_leaf_index with
    | some pk => foldPath leafDigest p.aocl_auth_path == pk
    | none => false
  let idxs := compute_index_set item p.sender_randomness p.receiver_preimage p.aocl_leaf_index
  let bitsOk := idxs.all (fun g =>
    if windowStart s ≤ g then !(windowBit s g)
    else
      match p.chunk_proofs.lookup (g / chunkSize) with
      | some (contents, cpath) =>
        (match peakAt (s.chunks.map chunkDigest) (g / chunkSize) with
         | some pk => foldPath (chunkDigest contents) cpath == pk
         | none => false)
        && !(contents.getD (g % chunkSize) false)
      | none => false)
  authOk && bitsOk

/-- An injective encoding of a list of digests, used to summarise peak lists. -/
def encodeDigestList (l : List Nat) : Nat :=
  l.foldr (fun a b => Nat.pair a b + 1) 0

/-- Modelled from the spec: `accumulator_digest` — a single hash
summarising the AOCL peaks, the chunk-MMR peaks and the active window. -/
def accumulator_digest (s : MutatorSetAccumulator) : Nat :=
  Nat.pair (encodeDigestList (peaksOf s.aocl))
    (Nat.pair (encodeDigestList (peaksOf (s.chunks.map chunkDigest))) (chunkDigest s.window))

/-- Structural well-formedness of an accumulator state: the active window
has its fixed size and one chunk has been archived per full batch of
additions.  Every state reachable from `new` satisfies it. -/
def WF (s : MutatorSetAccumulator) : Prop :=
  s.window.length = windowSize ∧ s.chunks.length = s.aocl.length / batchSize

instance (s : MutatorSetAccumulator) : Decidable (WF s) :=
  inferInstanceAs (Decidable (_ ∧ _))

/-- An accumulator operation: an addition of a commitment or the
application of a removal record. -/
inductive MsOp where
  | add : Nat → MsOp
  | remove : RemovalRecord → MsOp
deriving DecidableEq

/-- Apply one operation to an accumulator state. -/
def applyOp (s : MutatorSetAccumulator) : MsOp → MutatorSetAccumulator
  | .add c => msAdd s c
  | .remove r => (msRemove s r).1

/-- Apply a sequence of operations to a freshly created accumulator. -/
def applyOps (ops : List MsOp) : MutatorSetAccumulator :=
  ops.foldl applyOp MutatorSetAccumulator.new

/-! ## Restoration (archival only) -/

/-- Modelled from the spec: one restoration request, the opening
`(item, sender_randomness, receiver_preimage)` with the historical AOCL
leaf index.  The request type is only referenced by the extracted
sources. -/
structure RequestMsMembershipProofEx where
  item : Nat
  sender_randomness : Nat
  receiver_preimage : Nat
  aocl_leaf_index : Nat
deriving DecidableEq

/-- Failure modes of membership-proof restoration. -/
inductive RestoreError where
  | leafPruned : RestoreError
  | alreadySpent : RestoreError
deriving DecidableEq

/-- Modelled from the spec: `restore_membership_proof` (archival only)
fails with `LeafPruned` when the leaf is not retained, with
`AlreadySpent` when the derived index set is already fully set, and
otherwise rebuilds a fresh membership proof from the full state. -/
def restore_membership_proof (s : MutatorSetAccumulator) (r : RequestMsMembershipProofEx) :
    Except RestoreError MembershipProof :=
  if s.aocl.length ≤ r.aocl_leaf_index then .error .leafPruned
  else if (compute_index_set r.item r.sender_randomness r.receiver_preimage
      r.aocl_leaf_index).all (fun g => get_bit s g) then .error .alreadySpent
  else .ok (prove_membership s r.item r.sender_randomness r.receiver_preimage r.aocl_leaf_index)

/-! ## Transactions, mempool and the node state seen by the RPC server -/

/-- A transaction kernel: the output addition records (canonical
commitments), the fee in nau, and the mutator-set hash the transaction
was proved against. -/
structure TransactionKernel where
  outputs : List Nat
  fee : Int
  mutator_set_hash : Nat
deriving DecidableEq

/-- A transaction, reduced to its kernel. -/
structure Transaction where
  kernel : TransactionKernel
deriving DecidableEq

/-- The slice of the global node state used by the RPC handlers: the tip
accumulator, the tip block height and id, and the mempool. -/
structure NodeState where
  msa : MutatorSetAccumulator
  tipHeight : Nat
  tipBlockId : Nat
  mempool : List Transaction
deriving DecidableEq

/-- The mempool transaction info returned by `get_mempool`, reduced to
its sync flag.  `MempoolTransactionInfo::from` starts unsynced. -/
structure MempoolTransactionInfo where
  synced : Bool
deriving DecidableEq

/-- Per-transaction mapping of `get_mempool` (from `jsonrpc_server.rs`):
the entry's flag is switched on exactly when the kernel's mutator-set
hash equals the tip's accumulator digest. -/
def mempool_entry (tip_msah : Nat) (tx : Transaction) : MempoolTransactionInfo :=
  let mptxi : MempoolTransactionInfo := { synced := false }
  if tx.kernel.mutator_set_hash = tip_msah then { mptxi with synced := true } else mptxi

/-- The `get_mempool` endpoint (from `jsonrpc_server.rs`), restricted to
the sync-flag computation: every mempool transaction is reported with its
flag set from the tip's accumulator digest. -/
def get_mempool (st : NodeState) : List MempoolTransactionInfo :=
  st.mempool.map (fun tx => mempool_entry (accumulator_digest st.msa) tx)

/-- The `get_utxo_digest` endpoint (from `jsonrpc_server.rs`): the AOCL
leaf at `leaf_index`, guarded by `leaf_index > 0 && leaf_index < num_leafs`. -/
def get_utxo_digest (st : NodeState) (leaf_index : Nat) : Option Nat :=
  if 0 < leaf_index ∧ leaf_index < num_leafs st.msa then
    some (st.msa.aocl.getD leaf_index 0)
  else none

/-- Response of the `generate_membership_proof` endpoint. -/
structure ResponseMsMembershipProofEx where
  height : Nat
  block_id : Nat
  proofs : List MembershipProof
deriving DecidableEq

/-- The `generate_restore_membership_proof` handler (from
`jsonrpc_server.rs`): restore every request against the current archival
state, keep only the successes, and report the current tip height and
block id. -/
def generate_restore_membership_proof (st : NodeState)
    (r_datas : List RequestMsMembershipProofEx) : ResponseMsMembershipProofEx :=
  { height := st.tipHeight
    block_id := st.tipBlockId
    proofs := r_datas.filterMap (fun r => (restore_membership_proof st.msa r).toOption) }

/-! ## UTXO commitment computation and the sendtx endpoint -/

/-- A receiving address, abstracted to its decoded payload. -/
structure ReceivingAddress where
  payload : Nat
deriving DecidableEq

/-- A canonical-commitment value rendered as a hex string, modelled as an
injective wrapper of the digest. -/
structure HexString where
  ofDigest : Nat
deriving DecidableEq

/-- Hex rendering of a digest (`Digest::to_hex`), modelled injectively. -/
def toHex (d : Nat) : HexString := ⟨d⟩

/-- Modelled from the spec: the privacy digest of a receiving address
(wallet code is outside the extracted sources). -/
def privacy_digest (a : ReceivingAddress) : Nat := Nat.pair a.payload 1

/-- Modelled from the spec: the lock script of a receiving address
(wallet code is outside the extracted sources). -/
def lock_script (a : ReceivingAddress) : Nat := Nat.pair a.payload 2

/-- An injective encoding of an integer amount as a natural number. -/
def intEncode (i : Int) : Nat := if i < 0 then 2 * i.natAbs + 1 else 2 * i.natAbs

/-- Modelled from the spec: the item digest of a native-currency UTXO
built from a lock script and an amount (`Utxo::new_native_currency`
followed by hashing). -/
def utxo_item (lockScript : Nat) (amount : Int) : Nat :=
  Nat.pair lockScript (intEncode amount)

/-- `calculate_utxo_commitment` (from `jsonrpc_server.rs`): build the
native-currency UTXO for the address and amount, form the addition
record from `(item, sender_randomness, receiver_digest)` and render its
canonical commitment as hex. -/
def calculate_utxo_commitment (receiving_address : ReceivingAddress) (amount : Int)
    (sender_randomness : Nat) : HexString :=
  let receiver_digest := privacy_digest receiving_address
  let utxo := utxo_item (lock_script receiving_address) amount
  toHex (canonical_commitment utxo sender_randomness receiver_digest)

/-- The `build_utxo_index` endpoint (from `jsonrpc_server.rs`), after
request parsing: it returns the canonical-commitment hex for the parsed
address, amount and sender randomness. -/
def build_utxo_index (receiving_address : ReceivingAddress) (amount : Int)
    (sender_randomness : Nat) : HexString :=
  calculate_utxo_commitment receiving_address amount sender_randomness

/-- The hard-coded fee address of the sendtx endpoint (from
`jsonrpc_server.rs`). -/
def FEE_ADDRESS : String := "nolgam1nurfm22evhpscn5ddwgwa96z0048454c84hwapmvqq6rqqwqx4w34kudq6q5adjvgch8f8v9dsfz3h0vk60npzya04248umqq2xs9n9cznxzl92nh65k6pg60jesff6wu77l8e3c2h8yyjtwwd9kz00m6z7nl5vxk5929q34837shxn4x5t6p9wgheljlfs3kp7lnrl2z0an80y50lwzm704svvpw3ze5k9fkccttuhunjn96cr3jcgt80qggj5x9ltta5z3qmyxhxxmz9ns7kddcrtun0mfd5fz2d05xnkhjzp3pphc83jytrecc437gf7e9czqh9qfhw5000f43ghyc2dfa5vcl38rwzax27kuv0e0gtkj7q2ar3dt0q6y32fdp9nhtm9l4crg7ud7w6vlg28ncns5q4f86teneuu8ezs2zur30gscw5qk9dgmter2nzryph5k2r68k5xf5pf7lkjas9km6eu6jjl2ujfjv5572xqrdrymm3mne6gptpvg54qxfwp3kkm45fvc5knjecsv7w5dfx82u9kcl5mrdd39k8dgc6gddty49f4yy32nfczhxq0k5dx5qmyet273mz6ggthrtvsxtteg3ceg366pnhmgaplejmjgq7qyyc0vz43ecvry8k7p7ddysqutxgpm6w950mzcxcppe5rm6pkjv9tv5uxyx3kz8lpd744udfc8h0575lfkxuwfp4y3uf9nu3fzj8x2r4gt8y3wtwdlf3flldp0m289jc3lh0dv9372dxk7fddx3ns9acfz7cdxsluucxnrn7e8p7lx5h3ngztft68ae5fcnplekay90kvnqjnxr3e80q4xl0nufucchr66p6swa2gkptf85304wwjktllz7f2sswpx3qkpld8mku900jz0g6e2q9y806enem49qud89uqu6z8d98v9sux5anr2v88hr80jqz7t7g4dcj5spgnc0l996lrq0hfswzfwldx7klsxk82zlpfzwpfgkmu3gkdyqnh9salfwrckn95tk0k0kyhrkchhaplehldfj5wf6dnkhapaxhzwfzu8gglp2rf3jtpx7ew3hlq6yqtxtrfxu0ctwsycj9eqccnlpg77mjs292t39kz4n99vjd2yejuxztk4828yk2wk5urejc3fd00gwqmcxl4k2pw85vmxrvv8n9dv6amcgkmuhgfzfcy3wm0p5yhtvdhs4l0447au6x7kwdhmuxjgk7x80gtdmgd74zswdw0jkngwef2zctxnuktxp4e5fqftgw0yplq0d3lcrcqg6q3rw5ljc654adhee53xmmeaazg0avtzkt2q0ngsq8xuxxcax8u2x9zhcxjltcsewhe7ffzqrkznv3z3vuhar4whazsergmymz4jx2d3l8qwrlhcducztkkeygm8luwnrmh2fcrpkg79gj34u88e72ljt94aapkn5uunu457h2kc3czpgekjl2wjyuz9wcpyfk3z22xx7lx7etchn5mfqxpvjf63wcy0sd9qap8mwnmfzs5j4zh9jv8n8jdwvjyk5d3x0j42cdvh5zhq00g429j0vrvm8097vfq2fg2axhrzfuy6qv97swl39dm3q859guyk4pqv9a82kz5wgnvs84l9g3g5wjf9z888spenf97ddaprkxvxluhg268hst8jgfa78t4nrqklgvw6f630nt4yrsddwahmfcfux9gmt0zjyg9vkfrfct8qtg9lehrvgmwq4e7h6ys6r34l2xn82fy2ey5wwq0jn6vk52vugmzlpgc0aywltxqzn7dvz6dlec98en9f482vdmhf33th0k5nrpwq3qj6xg7ve09nna3kp3ff4nhknt4etqhzauc8v2047yl72yefh4zddc6g9s4ye4hvukulhhu37gqrll7qyg0sx6gtgalwgwcc50gd00m90vzca8mxykdqjhfesxre99ahmfcpa2xtqftzlvu8ag55wqm84rqapa06774v876lms39y5mx0r67mus4n45crh4j99f6wptmcmy9q8hqlnl8qgvxetx3ce3kla74uwuleh7jkzdpafgcvl7amv0s8usgg6z2nr3utc4xg5qgzaf5zw3tjnak72e0ptl86k5d2667pkzauq35c7x83tms2ysev6x20h5am89qu6mm77f8f7cemtd4hhxh4qp6ae55krpst59656mqzpzc8uup42mxrarc298n7y86ekgrgft3nkasfa30u9w50dxt6gx3rpyvpgsyv8nz3d0dhzgdtkt7gxd6nj02awyesdmncj0pwzdp59gh2c09rqfm7x8t7le70ej2dd7ncq2z2qwl0cphu8ds5hxzegur3mlrrqx0zdvmje79s86ads9v6srn2skztz7mlr47f2xs43tt2eejx0j66ukqusg2ltjjxe79efggq022u9j8dqd6qcuedrfhhm8rqg6na9rcuq35aqn40q4llseyrdz68x5enuyt7yhk3d3kqxwjfullcrqhtc82vzraw0pdgjxpjtxgjvrqeqfdn7j9ck57w2u5dppfuvkk52cc3mn28nnshn87j84vfd3tdkqu9wl037yn49l829gftaky623476hw4wc7x26al8q7mfsg56pmzlyzdmgqsa33r37k0thurnjasahp3c9z5mwk3zgtgtfvj2qydgz5su6wvewhh7yeqft8z2ze4j99qha32wagywmjuqhtff3v7wpdmrcu84zmlxd5zhf5lngp4t070uup93w7lv95uk6ckhrqq4fx8epcuynh6qwh86a03nvnjf7vxvmkae2l2qzu24pjz8wdtwqs87pfdhzcwj29ruzh9ag54zqe8qzw46azds62ug7qxgf3z00rgu5q28newruew6pcvv7w7uvs9fzchha5awsfk2xfjtyu3ml5y98m2fs7peusgwv9r78uy8w6stzgc9prtsa57l03l7sfhakkt40va06uwva5qc6vy8mztwkdw2z69xpzuf4qaz9rk83wtjqjj5xvxp4xjpeple9dxgxp0tqhqzt2f8t8r03dn0vx9tl6tnh7mn6k2tnatwqkjx0csz5fj7a3g4fs07rv2p2hxag0hc8p29hx4skh0xp6x2y6afwrs5jx8hagl8pm320wwwfeh2zsernkgul5jhpy2ea5tjf934z6qgwsxezex94w935z2txr8gw3fcsrpp4m94nmwmap3pe6xyw5qlz7yyjg9merzckv6lxe5k8rtysn7fgzy3f5ug99hzq29gpllklmja7sdjg2wwgxee6m5nqercjx48cta7qp4q6hyerdts4fc5ly0hemn9rnygwng4hckqc7le3u7jpemgjxjc4rudzdekqllkg88k9p3m0gadjm4s2ha5r42p0cv5ss44n7kfyzw4scpyjw0alt2rmuwckvezejusxsxdqu6c8ad0ja7fqh2e4"

/-- An injective-enough encoding of a string to a numeric payload, used
to model bech32m decoding. -/
def strEncode (s : String) : Nat :=
  s.foldl (fun a c => a * 1114112 + c.toNat) 0

/-- Modelled from the spec: `ReceivingAddress::from_bech32m`, assumed to
succeed on the checked fee address (the only place the sendtx handler
uses it after its equality gate). -/
def from_bech32m (s : String) : ReceivingAddress := ⟨strEncode s⟩

/-- A parsed sendtx request: the broadcast transaction, the already
parsed amount and sender randomness, the claimed fee address string and
the height the transaction was built at. -/
structure SendTx where
  broadcast_tx : Transaction
  amount : Int
  sender_randomness : Nat
  fee_address : String
  block_height : Nat

/-- Response body of the sendtx endpoint. -/
structure ResponseSendTx where
  status : Nat
  message : String
deriving DecidableEq

/-- The `send_transaction` handler (from `jsonrpc_server.rs`), after
request parsing: reject with status 1 when the fee address is not the
hard-coded one, with status 2 when the fee commitment is not among the
kernel's output commitments, with status 3 when the request's height is
not the current tip height; otherwise insert the transaction into the
mempool and answer status 0. -/
def send_transaction (st : NodeState) (req : SendTx) : ResponseSendTx × NodeState :=
  if req.fee_address ≠ FEE_ADDRESS then
    ({ status := 1, message := "fee_address is not valid" }, st)
  else
    let receiving_address := from_bech32m req.fee_address
    let output_index := calculate_utxo_commitment receiving_address req.amount req.sender_randomness
    let outputs := req.broadcast_tx.kernel.outputs.map toHex
    if output_index ∉ outputs then
      ({ status := 2, message := "Failed to pay the priority fee" }, st)
    else if st.tipHeight ≠ req.block_height then
      ({ status := 3, message := "Transaction expired" }, st)
    else
      ({ status := 0, message := "success" },
       { st with mempool := st.mempool ++ [req.broadcast_tx] })

/-! ## The transaction-fee-priority pool (`tx_pool/mod.rs`)

The sqlite statements are modelled by their relational meaning over a
connection state that records which tables exist; preparing a statement
against a missing table fails, as in sqlite.  The schema initializer
`create_db` fails (its CREATE TABLE is a SQLite syntax error) and no
statement anywhere creates the `executing` table, so both table-touching
operations take their error paths on the pool the program builds. -/

/-- One row of the `transactions` table: id, raw transaction bytes and
the stored 64-bit fee column. -/
structure TxRow where
  id : String
  rawtx : List Nat
  fee : Int
deriving DecidableEq

/-- State of the pool's sqlite connection: the set of tables that exist
on it, and the rows of the `transactions` (pending) and `executing`
tables for when those tables exist.  A freshly opened connection (debug
builds open `:memory:`) has no tables. -/
structure PoolDb where
  tables : List String
  pending : List TxRow
  executing : List TxRow
deriving DecidableEq

/-- A freshly opened pool connection: no tables exist yet. -/
def freshPoolDb : PoolDb := ⟨[], [], []⟩

/-- `PoolState::create_db` (from `tx_pool/mod.rs`): its CREATE TABLE
statement ends the column list with `revoke_key TEXT NOT NULL,` — the
trailing comma is a SQLite syntax error, so the execute fails and no
table is created; the CREATE INDEX after it is never reached, and no
statement in the module creates the `executing` table at all. -/
def create_db (db : PoolDb) : PoolDb × Except String Unit :=
  (db, .error "near \")\": syntax error")

/-- `PoolState::new` (from `tx_pool/mod.rs`): opens the connection and
propagates `create_db`'s result, so construction of the pool state
always fails. -/
def pool_state_new : Except String PoolDb :=
  match create_db freshPoolDb with
  | (db, .ok _) => .ok db
  | (_, .error e) => .error e

/-- Wrapping conversion of an integer into the signed 64-bit range,
modelling Rust's `as i64`. -/
def i64wrap (x : Int) : Int := (x + 2 ^ 63) % 2 ^ 64 - 2 ^ 63

/-- `fee_to_i64` (from `tx_pool/mod.rs`): arithmetic shift right by two,
truncating division by `10^20`, then cast to `i64`. -/
def fee_to_i64 (fee : Int) : Int := i64wrap ((fee.fdiv 4).tdiv (10 ^ 20))

/-- `PoolState::add_transaction` (from `tx_pool/mod.rs`): preparing the
INSERT fails when the `transactions` table does not exist — and with the
schema initializer as written it never exists — so the error is returned
before the fee gate; on an existing table, fees below the floor bail out
before the statement executes, and an accepted fee inserts one row with
the converted fee column. -/
def add_transaction (db : PoolDb) (id : String) (transaction : List Nat) (fee : Int) :
    PoolDb × Except String Unit :=
  if "transactions" ∉ db.tables then
    (db, .error "no such table: transactions")
  else if fee < 400000000000000000000000000000 then
    (db, .error "fee is too low")
  else
    ({ db with pending := db.pending ++ [⟨id, transaction, fee_to_i64 fee⟩] }, .ok ())

/-- One step of the maximal-fee scan: keep the row with the larger fee,
preferring the earlier row on ties. -/
def selectStep (acc : Option TxRow) (r : TxRow) : Option TxRow :=
  match acc with
  | none => some r
  | some m => if m.fee < r.fee then some r else some m

/-- The row returned by `SELECT * FROM transactions ORDER BY FEE DESC
LIMIT 1`: the first row carrying the maximal fee. -/
def select_max_fee (rows : List TxRow) : Option TxRow :=
  rows.foldl selectStep none

/-- `PoolState::get_most_worth_transaction` (from `tx_pool/mod.rs`):
preparing the SELECT fails when the `transactions` table does not exist.
With a row read, preparing the INSERT into `executing` fails when that
table does not exist (no code creates it), and the `?` operator returns
the error before any row is moved or deleted.  Only with both tables
present is the maximal-fee row copied to `executing`, deleted from
`transactions` and returned. -/
def get_most_worth_transaction (db : PoolDb) :
    Except String (Option (List Nat)) × PoolDb :=
  if "transactions" ∉ db.tables then
    (.error "no such table: transactions", db)
  else
    match select_max_fee db.pending with
    | none => (.ok none, db)
    | some r =>
      if "executing" ∉ db.tables then
        (.error "no such table: executing", db)
      else
        (.ok (some r.rawtx),
         { db with
             pending := db.pending.filter (fun x => x.id ≠ r.id)
             executing := db.executing ++ [r] })

/-! ## Block header and its BFieldCodec encoding (`block_header.rs`) -/

/-- The BFieldElement prime `2^64 - 2^32 + 1`. -/
def bfePrime : Nat := 2 ^ 64 - 2 ^ 32 + 1

/-- A BFieldElement: a canonical residue modulo `bfePrime`. -/
abbrev BFE := Fin bfePrime

/-- Canonical reduction of a natural number into a BFieldElement. -/
def mkBFE (n : Nat) : BFE := ⟨n % bfePrime, Nat.mod_lt n (by decide)⟩

/-- A 32-bit unsigned limb. -/
abbrev U32 := Fin 4294967296

/-- A five-element Digest as stored in block headers. -/
structure DigestW where
  d0 : BFE
  d1 : BFE
  d2 : BFE
  d3 : BFE
  d4 : BFE
deriving DecidableEq

/-- `U32s<5>`: five 32-bit limbs. -/
structure U32s5 where
  l0 : U32
  l1 : U32
  l2 : U32
  l3 : U32
  l4 : U32
deriving DecidableEq

/-- Modelled from the spec: `BlockHeight`, a wrapper around a single
BFieldElement (its module is not among the extracted sources). -/
structure BlockHeight where
  value : BFE
deriving DecidableEq

/-- The block header with its eleven fields (from `block_header.rs`). -/
structure BlockHeader where
  version : BFE
  height : BlockHeight
  mutator_set_hash : DigestW
  prev_block_digest : DigestW
  timestamp : BFE
  nonce : BFE × BFE × BFE
  max_block_size : U32
  proof_of_work_line : U32s5
  proof_of_work_family : U32s5
  difficulty : U32s5
  block_body_merkle_root : DigestW
deriving DecidableEq

/-- Embed a 32-bit limb into a BFieldElement. -/
def u32ToBFE (x : U32) : BFE := ⟨x.val, Nat.lt_trans x.isLt (by decide)⟩

/-- Recover a 32-bit limb from a BFieldElement, failing on values outside
the 32-bit range. -/
def bfeToU32 (b : BFE) : Option U32 :=
  if h : b.val < 4294967296 then some ⟨b.val, h⟩ else none

/-- Encoding of a Digest: its five field elements. -/
def encodeDigestW (d : DigestW) : List BFE := [d.d0, d.d1, d.d2, d.d3, d.d4]

/-- Encoding of a `U32s<5>`: one field element per 32-bit limb. -/
def encodeU32s5 (u : U32s5) : List BFE :=
  [u32ToBFE u.l0, u32ToBFE u.l1, u32ToBFE u.l2, u32ToBFE u.l3, u32ToBFE u.l4]

/-- The derived BFieldCodec encoding of a block header: the static-size
encodings of its eleven fields, concatenated in declaration order. -/
def BlockHeader.encode (h : BlockHeader) : List BFE :=
  [h.version] ++ [h.height.value] ++ encodeDigestW h.mutator_set_hash ++
    encodeDigestW h.prev_block_digest ++ [h.timestamp] ++
    [h.nonce.1, h.nonce.2.1, h.nonce.2.2] ++ [u32ToBFE h.max_block_size] ++
    encodeU32s5 h.proof_of_work_line ++ encodeU32s5 h.proof_of_work_family ++
    encodeU32s5 h.difficulty ++ encodeDigestW h.block_body_merkle_root

/-- The derived BFieldCodec decoding of a block header: split the
sequence at the fields' static lengths, decode each field, and fail on
any leftover or missing elements or non-canonical 32-bit limbs. -/
def BlockHeader.decode (l : List BFE) : Option BlockHeader :=
  match l with
  | v :: hgt :: m0 :: m1 :: m2 :: m3 :: m4 :: p0 :: p1 :: p2 :: p3 :: p4 :: ts ::
      n0 :: n1 :: n2 :: mbs :: a0 :: a1 :: a2 :: a3 :: a4 :: b0 :: b1 :: b2 :: b3 ::
      b4 :: c0 :: c1 :: c2 :: c3 :: c4 :: r0 :: r1 :: r2 :: r3 :: r4 :: [] => do
    let mbs32 ← bfeToU32 mbs
    let a0u ← bfeToU32 a0
    let a1u ← bfeToU32 a1
    let a2u ← bfeToU32 a2
    let a3u ← bfeToU32 a3
    let a4u ← bfeToU32 a4
    let b0u ← bfeToU32 b0
    let b1u ← bfeToU32 b1
    let b2u ← bfeToU32 b2
    let b3u ← bfeToU32 b3
    let b4u ← bfeToU32 b4
    let c0u ← bfeToU32 c0
    let c1u ← bfeToU32 c1
    let c2u ← bfeToU32 c2
    let c3u ← bfeToU32 c3
    let c4u ← bfeToU32 c4
    some
      { version := v
        height := ⟨hgt⟩
        mutator_set_hash := ⟨m0, m1, m2, m3, m4⟩
        prev_block_digest := ⟨p0, p1, p2, p3, p4⟩
        timestamp := ts
        nonce := (n0, n1, n2)
        max_block_size := mbs32
        proof_of_work_line := ⟨a0u, a1u, a2u, a3u, a4u⟩
        proof_of_work_family := ⟨b0u, b1u, b2u, b3u, b4u⟩
        difficulty := ⟨c0u, c1u, c2u, c3u, c4u⟩
        block_body_merkle_root := ⟨r0, r1, r2, r3, r4⟩ }
  | _ => none

/-- The zero field element. -/
def bfe0 : BFE := mkBFE 0

/-- The default (all-zero) digest. -/
def digestDefault : DigestW := ⟨bfe0, bfe0, bfe0, bfe0, bfe0⟩

/-- The zero 32-bit limb. -/
def u32zero : U32 := ⟨0, by decide⟩

/-- The all-zero `U32s<5>`. -/
def u32s5zero : U32s5 := ⟨u32zero, u32zero, u32zero, u32zero, u32zero⟩

/-- Encode the accumulator digest into the five-limb digest stored in
block headers. -/
def natToDigestW (n : Nat) : DigestW :=
  ⟨mkBFE n, mkBFE (n / bfePrime), mkBFE (n / bfePrime ^ 2), mkBFE (n / bfePrime ^ 3),
    mkBFE (n / bfePrime ^ 4)⟩

/-- `BlockHeader::empty_header` (from `block_header.rs`): all fields
zeroed except the mutator-set hash, which is the accumulator digest of a
freshly created mutator set accumulator. -/
def empty_header : BlockHeader :=
  { version := bfe0
    height := ⟨bfe0⟩
    mutator_set_hash := natToDigestW (accumulator_digest MutatorSetAccumulator.new)
    prev_block_digest := digestDefault
    timestamp := bfe0
    nonce := (bfe0, bfe0, bfe0)
    max_block_size := u32zero
    proof_of_work_line := u32s5zero
    proof_of_work_family := u32s5zero
    difficulty := u32s5zero
    block_body_merkle_root := digestDefault }

/-- The parsed fee address, used by concrete instances. -/
def feeAddressEx : ReceivingAddress := from_bech32m FEE_ADDRESS

/-- A concrete transaction paying the priority fee for amount 2 and
sender randomness 3. -/
def sendTxExTransaction : Transaction :=
  ⟨⟨[canonical_commitment (utxo_item (lock_script feeAddressEx) 2) 3 (privacy_digest feeAddressEx)],
    0, 0⟩⟩

/-- A concrete well-formed sendtx request at height 5. -/
def sendTxEx : SendTx := ⟨sendTxExTransaction, 2, 3, FEE_ADDRESS, 5⟩

/-- A concrete node state at tip height 5 with an empty mempool. -/
def nodeStateEx : NodeState := ⟨MutatorSetAccumulator.new, 5, 0, []⟩

/-! ## Lemmas about the MMR -/

theorem MTree.size_eq (t : MTree) : t.size = t.leaves.length := by
  induction t with
  | leaf d => simp [MTree.size, MTree.leaves]
  | node l r ihl ihr => simp [MTree.size, MTree.leaves, ihl, ihr]

theorem foldPath_append (s : Nat) (p q : List (Bool × Nat)) :
    foldPath s (p ++ q) = foldPath (foldPath s p) q := by
  simp [foldPath, List.foldl_append]

theorem MTree.pathAt_root (t : MTree) :
    ∀ i, i < t.size → foldPath (t.leafAt i) (t.pathAt i) = t.root := by
  induction t with
  | leaf d =>
    intro i hi
    simp only [MTree.size] at hi
    interval_cases i
    simp [MTree.leafAt, MTree.leaves, MTree.pathAt, foldPath, MTree.root]
  | node l r ihl ihr =>
    intro i hi
    by_cases h : i < l.size
    · have hleaf : (MTree.node l r).leafAt i = l.leafAt i := by
        have hlt : i < l.leaves.length := by rw [← MTree.size_eq]; exact h
        simp only [MTree.leafAt, MTree.leaves]
        exact List.getD_append _ _ _ _ hlt
      rw [hleaf]
      simp only [MTree.pathAt, h, if_true]
      rw [foldPath_append, ihl i h]
      simp [foldPath, MTree.root]
    · have h2 : i - l.size < r.size := by
        have := hi; simp only [MTree.size] at this; omega
      have hleaf : (MTree.node l r).leafAt i = r.leafAt (i - l.size) := by
        have hge : l.leaves.length ≤ i := by rw [← MTree.size_eq]; omega
        simp only [MTree.leafAt, MTree.leaves]
        rw [List.getD_append_right _ _ _ _ hge, MTree.size_eq]
      rw [hleaf]
      simp only [MTree.pathAt, h, if_false]
      rw [foldPath_append, ihr _ h2]
      simp [foldPath, MTree.root]

theorem joinLeaves_append (a b : List MTree) :
    joinLeaves (a ++ b) = joinLeaves a ++ joinLeaves b := by
  simp [joinLeaves]

theorem joinLeaves_cons (t : MTree) (ts : List MTree) :
    joinLeaves (t :: ts) = t.leaves ++ joinLeaves ts := by
  simp [joinLeaves]

theorem findTree_spec (ts : List MTree) :
    ∀ i, i < (joinLeaves ts).length →
      ∃ t off, findTree ts i = some (t, off) ∧ off < t.size ∧
        t.leafAt off = (joinLeaves ts).getD i 0 := by
  induction ts with
  | nil => intro i hi; simp [joinLeaves] at hi
  | cons t rest ih =>
    intro i hi
    by_cases h : i < t.size
    · refine ⟨t, i, by simp [findTree, h], h, ?_⟩
      have hlt : i < t.leaves.length := by rw [← MTree.size_eq]; exact h
      rw [joinLeaves_cons, List.getD_append _ _ _ _ hlt]
      rfl
    · have hlen : i - t.size < (joinLeaves rest).length := by
        rw [joinLeaves_cons, List.length_append, ← MTree.size_eq] at hi
        omega
      obtain ⟨u, off, h1, h3, h4⟩ := ih (i - t.size) hlen
      refine ⟨u, off, by simp [findTree, h, h1], h3, ?_⟩
      have hge : t.leaves.length ≤ i := by rw [← MTree.size_eq]; omega
      rw [joinLeaves_cons, List.getD_append_right _ _ _ _ hge, ← MTree.size_eq]
      exact h4

theorem pushTree_flatten (f : List MTree) :
    ∀ t, joinLeaves (pushTree f t).reverse = joinLeaves f.reverse ++ t.leaves := by
  induction f with
  | nil => intro t; simp [pushTree, joinLeaves]
  | cons s rest ih =>
    intro t
    by_cases h : s.size = t.size
    · simp only [pushTree, h, if_true]
      rw [ih (MTree.node s t)]
      simp [MTree.leaves, List.reverse_cons, joinLeaves_append, joinLeaves]
    · simp only [pushTree, h, if_false]
      simp [List.reverse_cons, joinLeaves_append, joinLeaves]

theorem buildForest_flatten (ls : List Nat) :
    joinLeaves (buildForest ls).reverse = ls := by
  suffices h : ∀ f : List MTree,
      joinLeaves ((ls.foldl (fun f d => pushTree f (.leaf d)) f)).reverse =
        joinLeaves f.reverse ++ ls by
    simpa [buildForest, joinLeaves] using h []
  induction ls with
  | nil => intro f; simp
  | cons d rest ih =>
    intro f
    simp only [List.foldl_cons]
    rw [ih (pushTree f (.leaf d)), pushTree_flatten]
    simp [MTree.leaves]

theorem peak_auth_correct (ls : List Nat) (i : Nat) (h : i < ls.length) :
    ∃ pk path, peakAt ls i = some pk ∧ authPathAt ls i = some path ∧
      foldPath (ls.getD i 0) path = pk := by
  have hlen : i < (joinLeaves (buildForest ls).reverse).length := by
    rw [buildForest_flatten]; exact h
  obtain ⟨t, off, h1, h2, h3⟩ := findTree_spec _ i hlen
  rw [buildForest_flatten] at h3
  refine ⟨t.root, t.pathAt off, by simp [peakAt, h1], by simp [authPathAt, h1], ?_⟩
  rw [← h3]
  exact t.pathAt_root off h2

/-! ## Lemmas about Bloom-filter bit manipulation -/

theorem list_getD_set_self (l : List Bool) :
    ∀ i, i < l.length → (l.set i true).getD i false = true := by
  induction l with
  | nil => intro i hi; simp at hi
  | cons b t ih =>
    intro i hi
    cases i with
    | zero => simp
    | succ n =>
      simp only [List.set_cons_succ, List.getD_cons_succ]
      exact ih n (by simpa using hi)

theorem list_getD_set_true (l : List Bool) :
    ∀ i j, l.getD i false = true → (l.set j true).getD i false = true := by
  induction l with
  | nil => intro i j h; simp [List.getD] at h
  | cons b t ih =>
    intro i j h
    cases i with
    | zero =>
      cases j with
      | zero => simp
      | succ m => simpa using h
    | succ n =>
      cases j with
      | zero => simpa using h
      | succ m =>
        simp only [List.set_cons_succ, List.getD_cons_succ] at *
        exact ih n m h

theorem list_set_true_eq (l : List Bool) :
    ∀ i, l.getD i false = true → l.set i true = l := by
  induction l with
  | nil => intro i _; rfl
  | cons b t ih =>
    intro i h
    cases i with
    | zero => simp only [List.getD_cons_zero] at h; simp [h]
    | succ n =>
      simp only [List.getD_cons_succ] at h
      simp only [List.set_cons_succ]
      rw [ih n h]

theorem setBitAt_chunks_length (s : MutatorSetAccumulator) (g : Nat) :
    (setBitAt s g).chunks.length = s.chunks.length := by
  unfold setBitAt; split <;> simp

theorem setBitAt_windowStart (s : MutatorSetAccumulator) (g : Nat) :
    windowStart (setBitAt s g) = windowStart s := by
  simp [windowStart, setBitAt_chunks_length]

theorem setBitAt_window_length (s : MutatorSetAccumulator) (g : Nat) :
    (setBitAt s g).window.length = s.window.length := by
  unfold setBitAt; split <;> simp

theorem windowBit_setBitAt_mono (s : MutatorSetAccumulator) (g h : Nat)
    (hb : windowBit s g = true) : windowBit (setBitAt s h) g = true := by
  unfold windowBit at *
  unfold setBitAt
  split
  · simpa [windowStart] using list_getD_set_true _ _ _ hb
  · simpa [windowStart, List.length_set] using hb

theorem set_bits_windowStart (idxs : List Nat) :
    ∀ s : MutatorSetAccumulator, windowStart (set_bits s idxs) = windowStart s := by
  induction idxs with
  | nil => intro s; rfl
  | cons a t ih =>
    intro s
    show windowStart (set_bits (setBitAt s a) t) = windowStart s
    rw [ih, setBitAt_windowStart]

theorem set_bits_window_length (idxs : List Nat) :
    ∀ s : MutatorSetAccumulator, (set_bits s idxs).window.length = s.window.length := by
  induction idxs with
  | nil => intro s; rfl
  | cons a t ih =>
    intro s
    show (set_bits (setBitAt s a) t).window.length = s.window.length
    rw [ih, setBitAt_window_length]

theorem windowBit_set_bits_mono (idxs : List Nat) :
    ∀ (s : MutatorSetAccumulator) (g : Nat),
      windowBit s g = true → windowBit (set_bits s idxs) g = true := by
  induction idxs with
  | nil => intro s g hb; exact hb
  | cons a t ih =>
    intro s g hb
    exact ih (setBitAt s a) g (windowBit_setBitAt_mono s g a hb)

theorem set_bits_sets (idxs : List Nat) :
    ∀ (s : MutatorSetAccumulator) (g : Nat), g ∈ idxs → windowStart s ≤ g →
      g - windowStart s < s.window.length → windowBit (set_bits s idxs) g = true := by
  induction idxs with
  | nil => intro s g hg _ _; simp at hg
  | cons a t ih =>
    intro s g hg hws hlen
    show windowBit (set_bits (setBitAt s a) t) g = true
    rcases List.mem_cons.mp hg with rfl | hmem
    · apply windowBit_set_bits_mono
      unfold setBitAt windowBit
      rw [if_pos hws]
      simpa [windowStart] using list_getD_set_self _ _ hlen
    · exact ih (setBitAt s a) g hmem
        (by rw [setBitAt_windowStart]; exact hws)
        (by rw [setBitAt_windowStart, setBitAt_window_length]; exact hlen)

theorem set_bits_noop (idxs : List Nat) :
    ∀ s : MutatorSetAccumulator,
      (∀ g ∈ idxs, windowStart s ≤ g ∧ get_bit s g = true) → set_bits s idxs = s := by
  induction idxs with
  | nil => intro s _; rfl
  | cons a t ih =>
    intro s h
    obtain ⟨hws, hbit⟩ := h a (List.mem_cons_self a t)
    have hset : setBitAt s a = s := by
      unfold setBitAt
      rw [if_pos hws]
      have hw : s.window.set (a - windowStart s) true = s.window := by
        apply list_set_true_eq
        unfold get_bit at hbit
        rw [if_pos hws] at hbit
        exact hbit
      rw [hw]
    show set_bits (setBitAt s a) t = s
    rw [hset]
    exact ih s (fun g hg => h g (List.mem_cons_of_mem a hg))

/-! ## Lemmas about addition and the derived index set -/

theorem msAdd_aocl (s : MutatorSetAccumulator) (c : Nat) :
    (msAdd s c).aocl = s.aocl ++ [c] := by
  unfold msAdd slide_window
  dsimp only
  split <;> rfl

theorem msAdd_window_length (s : MutatorSetAccumulator) (c : Nat)
    (hw : s.window.length = windowSize) : (msAdd s c).window.length = windowSize := by
  unfold msAdd slide_window
  dsimp only
  split
  · simp [hw, windowSize, chunkSize]
  · exact hw

theorem msAdd_windowStart (s : MutatorSetAccumulator) (c : Nat)
    (h2 : s.chunks.length = s.aocl.length / batchSize) :
    windowStart (msAdd s c) = ((s.aocl.length + 1) / batchSize) * chunkSize := by
  unfold msAdd slide_window
  dsimp only
  split
  next hc =>
    have hdvd : batchSize ∣ s.aocl.length + 1 := by
      simpa [Nat.dvd_iff_mod_eq_zero] using hc
    simp only [windowStart, List.length_append, List.length_cons, List.length_nil, h2]
    rw [Nat.succ_div]
    simp [hdvd]
  next hc =>
    have hdvd : ¬ batchSize ∣ s.aocl.length + 1 := by
      simpa [Nat.dvd_iff_mod_eq_zero] using hc
    simp only [windowStart, h2]
    rw [Nat.succ_div]
    simp [hdvd]

theorem msAdd_WF (s : MutatorSetAccumulator) (c : Nat) (h : WF s) : WF (msAdd s c) := by
  obtain ⟨hw, h2⟩ := h
  constructor
  · exact msAdd_window_length s c hw
  · have := msAdd_windowStart s c h2
    simp only [windowStart] at this
    have hchunk : (msAdd s c).chunks.length = (s.aocl.length + 1) / batchSize := by
      have hpos : 0 < chunkSize := by decide
      exact Nat.eq_of_mul_eq_mul_right hpos this
    rw [hchunk, msAdd_aocl]
    simp

theorem compute_index_set_bounds (item sr rp li : Nat) :
    ∀ g ∈ compute_index_set item sr rp li,
      ((li + 1) / batchSize) * chunkSize ≤ g ∧
        g - ((li + 1) / batchSize) * chunkSize < windowSize := by
  intro g hg
  unfold compute_index_set at hg
  obtain ⟨j, _, rfl⟩ := List.mem_map.mp hg
  refine ⟨Nat.le_add_right _ _, ?_⟩
  rw [Nat.add_sub_cancel_left]
  exact Nat.mod_lt _ (by decide)

theorem compute_index_set_head_mem (item sr rp li : Nat) :
    ((li + 1) / batchSize) * chunkSize + hashToOffset item sr rp li 0 ∈
      compute_index_set item sr rp li := by
  unfold compute_index_set
  exact List.mem_map.mpr ⟨0, List.mem_range.mpr (by decide), rfl⟩

/-! ## Claim theorems: round trip and spend invalidation -/

/-- C4 (amended): for every commitment, adding it and immediately proving
membership yields a proof that verifies, provided none of its derived
Bloom indices is already set in the post-addition accumulator (a Bloom
false positive, a cryptographically negligible event). -/
theorem spec_c4_round_trip (s : MutatorSetAccumulator) (item sr rp : Nat)
    (hwf : WF s)
    (hfresh : ∀ g ∈ compute_index_set item sr rp s.aocl.length,
      get_bit (msAdd s (canonical_commitment item sr rp)) g = false) :
    msVerify (msAdd s (canonical_commitment item sr rp)) item
      (prove_membership (msAdd s (canonical_commitment item sr rp)) item sr rp
        s.aocl.length) = true := by
  set c := canonical_commitment item sr rp
  set s1 := msAdd s c with hs1
  have haocl : s1.aocl = s.aocl ++ [c] := msAdd_aocl s c
  have hlen : s.aocl.length < s1.aocl.length := by rw [haocl]; simp
  obtain ⟨pk, path, hpk, hpath, hfold⟩ := peak_auth_correct s1.aocl s.aocl.length hlen
  have hleaf : s1.aocl.getD s.aocl.length 0 = c := by
    rw [haocl, List.getD_append_right _ _ _ _ (le_refl _)]
    simp
  rw [hleaf] at hfold
  have hws : windowStart s1 = ((s.aocl.length + 1) / batchSize) * chunkSize :=
    msAdd_windowStart s c hwf.2
  simp only [msVerify, prove_membership]
  rw [hpk, hpath]
  simp only [Option.getD_some]
  refine (Bool.and_eq_true _ _).mpr ⟨?_, ?_⟩
  · rw [hfold]
    exact beq_self_eq_true pk
  · refine List.all_eq_true.mpr ?_
    intro g hg
    obtain ⟨hge, _⟩ := compute_index_set_bounds item sr rp s.aocl.length g hg
    have hgws : windowStart s1 ≤ g := by rw [hws]; exact hge
    have hbit := hfresh g hg
    unfold get_bit at hbit
    rw [if_pos hgws] at hbit
    simp only [if_pos hgws, hbit]
    rfl

/-- C4 witness: the round trip at a concrete fresh accumulator. -/
theorem spec_c4_round_trip_witness :
    WF MutatorSetAccumulator.new ∧
    msVerify (msAdd MutatorSetAccumulator.new (canonical_commitment 0 0 0)) 0
      (prove_membership (msAdd MutatorSetAccumulator.new (canonical_commitment 0 0 0)) 0 0 0
        MutatorSetAccumulator.new.aocl.length) = true :=
  ⟨by decide, spec_c4_round_trip MutatorSetAccumulator.new 0 0 0 (by decide) (by decide)⟩

/-- C4 counterexample: after removing an earlier item whose Bloom indices
collide with the new item's, the proof obtained immediately after `add`
does not verify, so the unconditional round-trip claim is false. -/
theorem spec_c4_counterexample :
    msVerify
      (msAdd (msRemove (msAdd MutatorSetAccumulator.new (canonical_commitment 0 0 0))
          (removal_record 0 0 0 0)).1 (canonical_commitment 0 0 0)) 0
      (prove_membership
        (msAdd (msRemove (msAdd MutatorSetAccumulator.new (canonical_commitment 0 0 0))
            (removal_record 0 0 0 0)).1 (canonical_commitment 0 0 0)) 0 0 0
        (num_leafs (msRemove (msAdd MutatorSetAccumulator.new (canonical_commitment 0 0 0))
            (removal_record 0 0 0 0)).1)) = false := by
  decide


theorem msRemove_fst (s : MutatorSetAccumulator) (r : RemovalRecord) :
    (msRemove s r).1 = set_bits s r.index_set := rfl

theorem msRemove_snd (s : MutatorSetAccumulator) (r : RemovalRecord) :
    (msRemove s r).2 = r.index_set.any (fun g => get_bit s g) := rfl

theorem removal_record_index_set (item sr rp li : Nat) :
    (removal_record item sr rp li).index_set = compute_index_set item sr rp li := rfl

theorem bool_and_false_of_right (a b : Bool) (h : b = false) : (a && b) = false := by
  simp [h]

/-- Auxiliary form of the spend-invalidation property over an arbitrary
post-addition state: once all derived indices are set, the pre-removal
proof fails, a repeat removal reports `AlreadySpent`, and the repeat is a
state no-op. -/
theorem c5_aux (s1 : MutatorSetAccumulator) (item sr rp li : Nat)
    (hws : windowStart s1 = ((li + 1) / batchSize) * chunkSize)
    (hwin : s1.window.length = windowSize) :
    msVerify (set_bits s1 (compute_index_set item sr rp li)) item
      (prove_membership s1 item sr rp li) = false ∧
    ((compute_index_set item sr rp li).any
      (fun g => get_bit (set_bits s1 (compute_index_set item sr rp li)) g)) = true ∧
    set_bits (set_bits s1 (compute_index_set item sr rp li))
      (compute_index_set item sr rp li) = set_bits s1 (compute_index_set item sr rp li) := by
  have hA : ∀ g ∈ compute_index_set item sr rp li,
      windowStart s1 ≤ g ∧ g - windowStart s1 < s1.window.length := by
    intro g hg
    obtain ⟨hge, hlt⟩ := compute_index_set_bounds item sr rp li g hg
    rw [hws, hwin]
    exact ⟨hge, hlt⟩
  have hB : ∀ g ∈ compute_index_set item sr rp li,
      windowBit (set_bits s1 (compute_index_set item sr rp li)) g = true := by
    intro g hg
    exact set_bits_sets _ s1 g hg (hA g hg).1 (hA g hg).2
  have hwsEq : windowStart (set_bits s1 (compute_index_set item sr rp li)) = windowStart s1 :=
    set_bits_windowStart _ s1
  have hg0 : ((li + 1) / batchSize) * chunkSize + hashToOffset item sr rp li 0 ∈
      compute_index_set item sr rp li := compute_index_set_head_mem item sr rp li
  have hle0 : windowStart (set_bits s1 (compute_index_set item sr rp li)) ≤
      ((li + 1) / batchSize) * chunkSize + hashToOffset item sr rp li 0 := by
    rw [hwsEq, hws]
    exact Nat.le_add_right _ _
  refine ⟨?_, ?_, ?_⟩
  · simp only [msVerify, prove_membership]
    apply bool_and_false_of_right
    refine List.all_eq_false.mpr ⟨_, hg0, ?_⟩
    dsimp only
    rw [if_pos hle0]
    simp [hB _ hg0]
  · refine List.any_eq_true.mpr ⟨_, hg0, ?_⟩
    unfold get_bit
    rw [if_pos hle0]
    exact hB _ hg0
  · apply set_bits_noop
    intro g hg
    have hle : windowStart (set_bits s1 (compute_index_set item sr rp li)) ≤ g := by
      rw [hwsEq]
      exact (hA g hg).1
    refine ⟨hle, ?_⟩
    unfold get_bit
    rw [if_pos hle]
    exact hB g hg

/-- C5: adding a commitment and removing it via its correctly derived
removal record makes the pre-removal membership proof fail, makes a
second removal with the same record report `AlreadySpent`, and leaves the
accumulator unchanged under that second (idempotent, still accepted)
removal. -/
theorem spec_c5_spend_invalidation (s : MutatorSetAccumulator) (item sr rp : Nat)
    (hwf : WF s) :
    msVerify (msRemove (msAdd s (canonical_commitment item sr rp))
        (removal_record item sr rp s.aocl.length)).1 item
      (prove_membership (msAdd s (canonical_commitment item sr rp)) item sr rp
        s.aocl.length) = false ∧
    (msRemove (msRemove (msAdd s (canonical_commitment item sr rp))
        (removal_record item sr rp s.aocl.length)).1
      (removal_record item sr rp s.aocl.length)).2 = true ∧
    (msRemove (msRemove (msAdd s (canonical_commitment item sr rp))
        (removal_record item sr rp s.aocl.length)).1
      (removal_record item sr rp s.aocl.length)).1 =
    (msRemove (msAdd s (canonical_commitment item sr rp))
        (removal_record item sr rp s.aocl.length)).1 := by
  have hws : windowStart (msAdd s (canonical_commitment item sr rp)) =
      ((s.aocl.length + 1) / batchSize) * chunkSize :=
    msAdd_windowStart s _ hwf.2
  have hwin : (msAdd s (canonical_commitment item sr rp)).window.length = windowSize :=
    msAdd_window_length s _ hwf.1
  obtain ⟨h1, h2, h3⟩ := c5_aux (msAdd s (canonical_commitment item sr rp)) item sr rp
    s.aocl.length hws hwin
  rw [msRemove_fst, msRemove_fst, msRemove_snd, removal_record_index_set]
  exact ⟨h1, ⟨h2, h3⟩⟩

/-- C5 witness: spend invalidation at a concrete fresh accumulator. -/
theorem spec_c5_spend_invalidation_witness :
    WF MutatorSetAccumulator.new ∧
    (msVerify (msRemove (msAdd MutatorSetAccumulator.new (canonical_commitment 0 0 0))
        (removal_record 0 0 0 MutatorSetAccumulator.new.aocl.length)).1 0
      (prove_membership (msAdd MutatorSetAccumulator.new (canonical_commitment 0 0 0)) 0 0 0
        MutatorSetAccumulator.new.aocl.length) = false ∧
    (msRemove (msRemove (msAdd MutatorSetAccumulator.new (canonical_commitment 0 0 0))
        (removal_record 0 0 0 MutatorSetAccumulator.new.aocl.length)).1
      (removal_record 0 0 0 MutatorSetAccumulator.new.aocl.length)).2 = true ∧
    (msRemove (msRemove (msAdd MutatorSetAccumulator.new (canonical_commitment 0 0 0))
        (removal_record 0 0 0 MutatorSetAccumulator.new.aocl.length)).1
      (removal_record 0 0 0 MutatorSetAccumulator.new.aocl.length)).1 =
    (msRemove (msAdd MutatorSetAccumulator.new (canonical_commitment 0 0 0))
        (removal_record 0 0 0 MutatorSetAccumulator.new.aocl.length)).1) :=
  ⟨by decide, spec_c5_spend_invalidation MutatorSetAccumulator.new 0 0 0 (by decide)⟩

/-! ## Claim theorems: digests, archival lookup, restoration batches -/

/-- C1: the accumulator digest is a deterministic function of the applied
operation sequence; a fresh empty accumulator hashes to exactly the value
`empty_header` stores as the block header's mutator-set hash; and a
mempool transaction is reported as synced exactly when its kernel's
mutator-set hash equals the tip's accumulator digest. -/
theorem spec_c1_digest_determinism :
    (∀ (ops : List MsOp) (a b : MutatorSetAccumulator),
      a = applyOps ops → b = applyOps ops →
      accumulator_digest a = accumulator_digest b) ∧
    empty_header.mutator_set_hash =
      natToDigestW (accumulator_digest MutatorSetAccumulator.new) ∧
    (∀ (st : NodeState) (tx : Transaction), tx ∈ st.mempool →
      ((mempool_entry (accumulator_digest st.msa) tx).synced = true ↔
        tx.kernel.mutator_set_hash = accumulator_digest st.msa)) := by
  refine ⟨?_, rfl, ?_⟩
  · intro ops a b ha hb
    rw [ha, hb]
  · intro st tx _
    unfold mempool_entry
    dsimp only
    split
    next h => simp [h]
    next h => simp [h]

/-- C1 witness: determinism and the synced flag at concrete inputs. -/
theorem spec_c1_digest_determinism_witness :
    accumulator_digest (applyOps []) = accumulator_digest (applyOps []) ∧
    (mempool_entry (accumulator_digest MutatorSetAccumulator.new)
      ⟨⟨[], 0, accumulator_digest MutatorSetAccumulator.new⟩⟩).synced = true :=
  ⟨spec_c1_digest_determinism.1 [] (applyOps []) (applyOps []) rfl rfl,
   (spec_c1_digest_determinism.2.2
      ⟨MutatorSetAccumulator.new, 0, 0,
        [⟨⟨[], 0, accumulator_digest MutatorSetAccumulator.new⟩⟩]⟩
      ⟨⟨[], 0, accumulator_digest MutatorSetAccumulator.new⟩⟩
      (List.mem_singleton.mpr rfl)).mpr rfl⟩

/-- C2 (amended): the `/rpc/utxo_digest` endpoint returns the stored AOCL
leaf exactly for indices with `0 < leaf_index < num_leafs`; it returns
`none` when `leaf_index = 0` as well as when `leaf_index >= num_leafs`. -/
theorem spec_c2_utxo_digest (st : NodeState) (leaf_index : Nat) :
    (0 < leaf_index → leaf_index < num_leafs st.msa →
      get_utxo_digest st leaf_index = some (st.msa.aocl.getD leaf_index 0)) ∧
    (leaf_index = 0 ∨ num_leafs st.msa ≤ leaf_index →
      get_utxo_digest st leaf_index = none) := by
  constructor
  · intro h1 h2
    unfold get_utxo_digest
    rw [if_pos ⟨h1, h2⟩]
  · intro h
    unfold get_utxo_digest
    rw [if_neg]
    rintro ⟨hp, hl⟩
    rcases h with rfl | hge
    · exact absurd hp (by omega)
    · exact absurd hl (by omega)

/-- C2 witness: a retained in-range leaf is returned. -/
theorem spec_c2_utxo_digest_witness :
    get_utxo_digest ⟨msAdd (msAdd MutatorSetAccumulator.new 5) 7, 2, 0, []⟩ 1 =
      some ((msAdd (msAdd MutatorSetAccumulator.new 5) 7).aocl.getD 1 0) :=
  (spec_c2_utxo_digest ⟨msAdd (msAdd MutatorSetAccumulator.new 5) 7, 2, 0, []⟩ 1).1
    (by decide) (by decide)

/-- C2 counterexample: leaf index 0 is strictly below `num_leafs` on a
non-empty AOCL, yet the endpoint returns `none`, refuting totality on the
whole retained range. -/
theorem spec_c2_counterexample :
    0 < num_leafs (msAdd MutatorSetAccumulator.new 5) ∧
    get_utxo_digest ⟨msAdd MutatorSetAccumulator.new 5, 1, 0, []⟩ 0 = none := by
  decide

/-- C3 (amended): the restoration batch endpoint answers at the node's
current tip height (reported in the response), and returns one proof per
request whose restoration succeeds, in request order — failed requests
are silently dropped, so the response never has more entries than the
batch. -/
theorem spec_c3_restore_batch (st : NodeState) (r_datas : List RequestMsMembershipProofEx) :
    (generate_restore_membership_proof st r_datas).height = st.tipHeight ∧
    (generate_restore_membership_proof st r_datas).proofs.length ≤ r_datas.length ∧
    (generate_restore_membership_proof st r_datas).proofs =
      r_datas.filterMap (fun r => (restore_membership_proof st.msa r).toOption) :=
  ⟨rfl, List.length_filterMap_le _ _, rfl⟩

/-- C3 counterexample: a batch with one failing restoration request gets
a response with zero proofs, refuting one-proof-per-request completeness. -/
theorem spec_c3_counterexample :
    (generate_restore_membership_proof ⟨MutatorSetAccumulator.new, 0, 0, []⟩
        [⟨0, 0, 0, 0⟩]).proofs.length ≠
      ([⟨0, 0, 0, 0⟩] : List RequestMsMembershipProofEx).length := by
  decide

/-! ## Claim theorems: commitment determinism and the fee-priority pool -/

/-- C6: `calculate_utxo_commitment` is deterministic — two calls with
equal address, amount and sender randomness yield equal hex strings — and
the resulting addition record is a function of
`(item, sender_randomness, receiver_digest)` alone. -/
theorem spec_c6_commitment_determinism :
    (∀ (a1 a2 : ReceivingAddress) (m1 m2 : Int) (r1 r2 : Nat),
      a1 = a2 → m1 = m2 → r1 = r2 →
      calculate_utxo_commitment a1 m1 r1 = calculate_utxo_commitment a2 m2 r2) ∧
    (∀ (a : ReceivingAddress) (m : Int) (r : Nat),
      calculate_utxo_commitment a m r =
        toHex (canonical_commitment (utxo_item (lock_script a) m) r (privacy_digest a))) := by
  refine ⟨?_, fun a m r => rfl⟩
  intro a1 a2 m1 m2 r1 r2 ha hm hr
  rw [ha, hm, hr]

/-- C6 witness: determinism at a concrete input. -/
theorem spec_c6_commitment_determinism_witness :
    calculate_utxo_commitment ⟨1⟩ 2 3 = calculate_utxo_commitment ⟨1⟩ 2 3 :=
  spec_c6_commitment_determinism.1 ⟨1⟩ ⟨1⟩ 2 2 3 3 rfl rfl rfl

theorem select_step_eq_some (acc : Option TxRow) (a m : TxRow)
    (hm : selectStep acc a = some m) :
    m = a ∨ acc = some m := by
  cases acc with
  | none => exact Or.inl (Option.some.inj hm).symm
  | some m0 =>
    simp only [selectStep] at hm
    by_cases hc : m0.fee < a.fee
    · rw [if_pos hc] at hm
      exact Or.inl (Option.some.inj hm).symm
    · rw [if_neg hc] at hm
      exact Or.inr hm

theorem select_step_le (acc : Option TxRow) (a : TxRow) :
    ∃ m, selectStep acc a = some m ∧
      a.fee ≤ m.fee ∧ (∀ m0, acc = some m0 → m0.fee ≤ m.fee) := by
  cases acc with
  | none => exact ⟨a, rfl, le_refl _, fun m0 hm0 => by cases hm0⟩
  | some m0 =>
    simp only [selectStep]
    by_cases hc : m0.fee < a.fee
    · exact ⟨a, by rw [if_pos hc], le_refl _,
        fun m1 hm1 => by cases hm1; exact le_of_lt hc⟩
    · exact ⟨m0, by rw [if_neg hc], le_of_not_lt hc,
        fun m1 hm1 => by cases hm1; exact le_refl _⟩

theorem select_max_fee_go (rows : List TxRow) :
    ∀ (acc : Option TxRow) (r : TxRow),
      rows.foldl selectStep acc = some r →
      (r ∈ rows ∨ acc = some r) ∧ (∀ x ∈ rows, x.fee ≤ r.fee) ∧
        (∀ m, acc = some m → m.fee ≤ r.fee) := by
  induction rows with
  | nil =>
    intro acc r h
    simp only [List.foldl_nil] at h
    refine ⟨Or.inr h, by simp, fun m hm => ?_⟩
    rw [hm] at h
    cases h
    exact le_refl _
  | cons a t ih =>
    intro acc r h
    simp only [List.foldl_cons] at h
    obtain ⟨mm, hmm, hle, hprev⟩ := select_step_le acc a
    rw [hmm] at h
    obtain ⟨hmem, hmax, hacc⟩ := ih _ r h
    have hmmr : mm.fee ≤ r.fee := hacc mm rfl
    have hafee : a.fee ≤ r.fee := le_trans hle hmmr
    refine ⟨?_, ?_, ?_⟩
    · rcases hmem with hm | he
      · exact Or.inl (List.mem_cons_of_mem _ hm)
      · obtain rfl := Option.some.inj he
        rcases select_step_eq_some acc a _ hmm with rfl | hacc2
        · exact Or.inl (List.mem_cons_self _ _)
        · exact Or.inr hacc2
    · intro x hx
      rcases List.mem_cons.mp hx with rfl | hxt
      · exact hafee
      · exact hmax x hxt
    · intro m hm
      exact le_trans (hprev m hm) hmmr

theorem select_max_fee_spec (rows : List TxRow) (r : TxRow)
    (h : select_max_fee rows = some r) :
    r ∈ rows ∧ ∀ x ∈ rows, x.fee ≤ r.fee := by
  unfold select_max_fee at h
  obtain ⟨hmem, hmax, _⟩ := select_max_fee_go rows none r h
  rcases hmem with hm | he
  · exact ⟨hm, hmax⟩
  · cases he

theorem select_max_fee_go_isSome (t : List TxRow) :
    ∀ m : TxRow, (t.foldl selectStep (some m)).isSome := by
  induction t with
  | nil => intro m; rfl
  | cons a t ih =>
    intro m
    simp only [List.foldl_cons]
    by_cases hc : m.fee < a.fee
    · simpa [selectStep, hc] using ih a
    · simpa [selectStep, hc] using ih m

theorem select_max_fee_isSome (rows : List TxRow) (h : rows ≠ []) :
    (select_max_fee rows).isSome := by
  cases rows with
  | nil => exact absurd rfl h
  | cons a t =>
    unfold select_max_fee
    simp only [List.foldl_cons]
    exact select_max_fee_go_isSome t a

/-- C7: the fee-priority dispensing the claim (and the module's own
`test_tx_insert`) describes is unreachable in the code: the schema
initializer `create_db` fails on its CREATE TABLE syntax error, so
`PoolState::new` always errors; preparing the SELECT fails without a
`transactions` table; and even granting that table a maximal-fee row,
preparing the INSERT into the never-created `executing` table fails, so
`get_most_worth_transaction` returns an error with no row dispensed,
deleted or moved. -/
theorem spec_c7_fee_priority_bug :
    pool_state_new = .error "near \")\": syntax error" ∧
    get_most_worth_transaction freshPoolDb =
      (.error "no such table: transactions", freshPoolDb) ∧
    get_most_worth_transaction ⟨["transactions"], [⟨"1", [1, 2, 3], 25⟩], []⟩ =
      (.error "no such table: executing",
       ⟨["transactions"], [⟨"1", [1, 2, 3], 25⟩], []⟩) :=
  ⟨rfl, rfl, rfl⟩

/-! ## Claim theorems: the sendtx gate, the pool fee floor, header codec -/

/-- C8: after request parsing, the sendtx endpoint inserts the submitted
transaction into the mempool exactly when the request's fee address is
the hard-coded `FEE_ADDRESS`, the fee commitment computed from
`(fee_address, amount, sender_randomness)` occurs among the kernel's
output commitments, and the request's height equals the tip height; in
every other case the status is nonzero and the node state is unchanged. -/
theorem spec_c8_sendtx_gate (st : NodeState) (req : SendTx) :
    ((send_transaction st req).1.status = 0 ↔
      (req.fee_address = FEE_ADDRESS ∧
       calculate_utxo_commitment (from_bech32m req.fee_address) req.amount
         req.sender_randomness ∈ req.broadcast_tx.kernel.outputs.map toHex ∧
       req.block_height = st.tipHeight)) ∧
    ((req.fee_address = FEE_ADDRESS ∧
      calculate_utxo_commitment (from_bech32m req.fee_address) req.amount
        req.sender_randomness ∈ req.broadcast_tx.kernel.outputs.map toHex ∧
      req.block_height = st.tipHeight) →
      (send_transaction st req).2.mempool = st.mempool ++ [req.broadcast_tx]) ∧
    (¬(req.fee_address = FEE_ADDRESS ∧
       calculate_utxo_commitment (from_bech32m req.fee_address) req.amount
         req.sender_randomness ∈ req.broadcast_tx.kernel.outputs.map toHex ∧
       req.block_height = st.tipHeight) →
      (send_transaction st req).1.status ≠ 0 ∧ (send_transaction st req).2 = st) := by
  by_cases h1 : req.fee_address = FEE_ADDRESS
  · by_cases h2 : calculate_utxo_commitment (from_bech32m req.fee_address) req.amount
        req.sender_randomness ∈ req.broadcast_tx.kernel.outputs.map toHex
    · by_cases h3 : req.block_height = st.tipHeight
      · have hst : send_transaction st req =
            ({ status := 0, message := "success" },
             { st with mempool := st.mempool ++ [req.broadcast_tx] }) := by
          unfold send_transaction
          rw [if_neg (by simpa using h1)]
          dsimp only
          rw [if_neg (by simpa using h2), if_neg (by simp [h3])]
        rw [hst]
        exact ⟨⟨fun _ => ⟨h1, h2, h3⟩, fun _ => rfl⟩, fun _ => rfl,
          fun hn => absurd ⟨h1, h2, h3⟩ hn⟩
      · have hst : send_transaction st req =
            ({ status := 3, message := "Transaction expired" }, st) := by
          unfold send_transaction
          rw [if_neg (by simpa using h1)]
          dsimp only
          rw [if_neg (by simpa using h2), if_pos (by simp [Ne, eq_comm] at h3 ⊢; exact h3)]
        rw [hst]
        exact ⟨by simp [h3], fun hc => absurd hc.2.2 h3, fun _ => ⟨by simp, rfl⟩⟩
    · have hst : send_transaction st req =
          ({ status := 2, message := "Failed to pay the priority fee" }, st) := by
        unfold send_transaction
        rw [if_neg (by simpa using h1)]
        dsimp only
        rw [if_pos (by simpa using h2)]
      rw [hst]
      exact ⟨by simp [h2], fun hc => absurd hc.2.1 h2, fun _ => ⟨by simp, rfl⟩⟩
  · have hst : send_transaction st req =
        ({ status := 1, message := "fee_address is not valid" }, st) := by
      unfold send_transaction
      rw [if_pos (by simpa using h1)]
    rw [hst]
    exact ⟨by simp [h1], fun hc => absurd hc.1 h1, fun _ => ⟨by simp, rfl⟩⟩

/-- C8 witness: a valid request at the current tip height is inserted
with status 0. -/
theorem spec_c8_sendtx_gate_witness :
    (send_transaction nodeStateEx sendTxEx).1.status = 0 ∧
    (send_transaction nodeStateEx sendTxEx).2.mempool =
      nodeStateEx.mempool ++ [sendTxEx.broadcast_tx] :=
  have h := spec_c8_sendtx_gate nodeStateEx sendTxEx
  have hc : sendTxEx.fee_address = FEE_ADDRESS ∧
      calculate_utxo_commitment (from_bech32m sendTxEx.fee_address) sendTxEx.amount
        sendTxEx.sender_randomness ∈ sendTxEx.broadcast_tx.kernel.outputs.map toHex ∧
      sendTxEx.block_height = nodeStateEx.tipHeight :=
    ⟨rfl, List.mem_singleton.mpr rfl, rfl⟩
  ⟨h.1.mpr hc, h.2.1 hc⟩

/-! ## Claim theorems: pool fee floor and header codec round trip -/

theorem int_fdiv_ofNat (m n : Nat) : (↑m : Int).fdiv (↑n) = ↑(m / n) :=
  (Int.ofNat_fdiv m n).symm

theorem int_tdiv_ofNat (m n : Nat) : (↑m : Int).tdiv (↑n) = ↑(m / n) := rfl

/-- In the i128 input range, `fee_to_i64` of an accepted fee is exactly
the shifted, divided value: the final 64-bit cast does not wrap. -/
theorem fee_to_i64_in_range (fee : Int)
    (hlo : 400000000000000000000000000000 ≤ fee) (hhi : fee < 2 ^ 127) :
    fee_to_i64 fee = (fee.fdiv 4).tdiv (10 ^ 20) := by
  obtain ⟨m, rfl⟩ := Int.eq_ofNat_of_zero_le (le_trans (by norm_num) hlo)
  have hm : m < 2 ^ 127 := by exact_mod_cast hhi
  have hpow : ((10 : Int) ^ 20) = ((10 ^ 20 : Nat) : Int) := by norm_num
  have h4 : (4 : Int) = ((4 : Nat) : Int) := by norm_num
  have hb : m / 4 / 10 ^ 20 < 2 ^ 63 := by
    rw [Nat.div_div_eq_div_mul]
    rw [Nat.div_lt_iff_lt_mul (by norm_num : 0 < 4 * 10 ^ 20)]
    exact lt_of_lt_of_le hm (by norm_num)
  unfold fee_to_i64
  rw [h4, hpow, int_fdiv_ofNat, int_tdiv_ofNat]
  unfold i64wrap
  have hb2 : m / 4 / 10 ^ 20 < 9223372036854775808 := by
    norm_num at hb
    exact hb
  simp only [show ((2 : Int) ^ 63) = 9223372036854775808 by norm_num,
    show ((2 : Int) ^ 64) = 18446744073709551616 by norm_num]
  omega

/-- C9: the row insertion the claim describes is unreachable in the
code: `create_db`'s CREATE TABLE is a SQLite syntax error, so the
`transactions` table never exists on the pool's connection and preparing
the INSERT fails before the fee gate is reached — `add_transaction`
returns an error and inserts nothing even for fees far above the floor. -/
theorem spec_c9_pool_fee_floor_bug :
    pool_state_new = .error "near \")\": syntax error" ∧
    add_transaction freshPoolDb "5" [3, 2, 3] 500000000000000000000000000000 =
      (freshPoolDb, .error "no such table: transactions") ∧
    add_transaction freshPoolDb "5" [3, 2, 3] 0 =
      (freshPoolDb, .error "no such table: transactions") :=
  ⟨rfl, rfl, rfl⟩

theorem bfeToU32_u32ToBFE (x : U32) : bfeToU32 (u32ToBFE x) = some x := by
  unfold bfeToU32 u32ToBFE
  dsimp only
  rw [dif_pos x.isLt]

/-- C10: the BFieldCodec encoding of a block header decodes back to the
same header — the encoding of the eleven header fields is injective and
invertible. -/
theorem spec_c10_header_roundtrip (h : BlockHeader) :
    BlockHeader.decode (BlockHeader.encode h) = some h := by
  obtain ⟨v, ⟨hg⟩, ⟨m0, m1, m2, m3, m4⟩, ⟨p0, p1, p2, p3, p4⟩, ts, ⟨n0, n1, n2⟩, mbs,
    ⟨a0, a1, a2, a3, a4⟩, ⟨b0, b1, b2, b3, b4⟩, ⟨c0, c1, c2, c3, c4⟩,
    ⟨r0, r1, r2, r3, r4⟩⟩ := h
  simp only [BlockHeader.encode, encodeDigestW, encodeU32s5, List.cons_append,
    List.nil_append]
  simp [BlockHeader.decode, bfeToU32_u32ToBFE]
